import Mathlib

/-!
Shallow embedding of the per-client concurrency admission controller
(`api/core/app/features/rate_limiting/rate_limit.py`) and the recycle-safe
context slot (`api/contexts/wrapper.py`), with theorems settling the frozen
claims about them.

Modelling conventions:
* `time.time()` values are modeled as integers (`ℤ`), passed explicitly as
  `now`; the code only subtracts and order-compares timestamps, so the
  fractional part of the float is irrelevant to every claim.
* The redis store visible to one limiter is the pair of keys it uses:
  the `max_active_requests` string record and the `active_requests` hash.
  A hash is an association list `List (String × ℤ)` (field → timestamp).
* Every store-touching operation also returns the list of redis commands it
  issued (`RedisOp`), so "never contacts the shared store" is expressible.
* Python's `ContextVar` with no default is an `Option`; an unset read is a
  `LookupError`.
-/

namespace ContextsWrapper

/-- State of one `RecyclableContextVar` slot together with the class-level
`_thread_recycles` counter.  `threadRecycles = none` models the class
`ContextVar` never having been set (reads of it use default `0`);
`cell = none` models the wrapped `ContextVar` never having been set. -/
structure SlotState (T : Type) where
  threadRecycles : Option Nat
  updates : Nat
  cell : Option T
  deriving Repr, DecidableEq

/-- The value `_thread_recycles.get(0)` reads: the counter, defaulting to 0. -/
def effR {T : Type} (s : SlotState T) : Nat :=
  s.threadRecycles.getD 0

/-- `RecyclableContextVar.increment_thread_recycles`: increments the counter,
or sets it to `0` on the very first call (the `LookupError` branch). -/
def increment {T : Type} (s : SlotState T) : SlotState T :=
  match s.threadRecycles with
  | some r => { s with threadRecycles := some (r + 1) }
  | none => { s with threadRecycles := some 0 }

/-- Result of `RecyclableContextVar.get`: a returned value or a raised
`LookupError`. -/
inductive GetResult (T : Type) where
  | value (v : T)
  | lookupError
  deriving Repr, DecidableEq

/-- `RecyclableContextVar.get(default)`.  `default = none` models the hidden
sentinel default (raise on staleness).  Returns the result together with the
possibly-normalized state (`get` writes `_updates` when
`thread_recycles > _updates`). -/
def get {T : Type} (default : Option T) (s : SlotState T) :
    GetResult T × SlotState T :=
  let thread_recycles := effR s
  let self_updates := s.updates
  let s' := if thread_recycles > self_updates
    then { s with updates := thread_recycles } else s
  if thread_recycles < self_updates then
    match s'.cell with
    | some v => (.value v, s')
    | none => (.lookupError, s')
  else
    match default with
    | some d => (.value d, s')
    | none => (.lookupError, s')

/-- `RecyclableContextVar.set(value)`: normalize `_updates` up to the recycle
counter, bump it by one if it equals the counter, then store the value. -/
def set {T : Type} (v : T) (s : SlotState T) : SlotState T :=
  let thread_recycles := effR s
  let self_updates := s.updates
  let s1 := if thread_recycles > self_updates
    then { s with updates := thread_recycles } else s
  let s2 := if s1.updates = thread_recycles
    then { s1 with updates := s1.updates + 1 } else s1
  { s2 with cell := some v }

/-- One operation on a slot, for trace reasoning. -/
inductive SlotOp (T : Type) where
  | inc
  | setOp (v : T)
  | getOp (default : Option T)
  deriving Repr

/-- Apply one operation to the slot state (the result of a `get` is dropped,
its normalization side effect is kept). -/
def applySlotOp {T : Type} (op : SlotOp T) (s : SlotState T) : SlotState T :=
  match op with
  | .inc => increment s
  | .setOp v => set v s
  | .getOp d => (get d s).2

/-- Run a list of operations left to right. -/
def runSlotOps {T : Type} (ops : List (SlotOp T)) (s : SlotState T) :
    SlotState T :=
  ops.foldl (fun st op => applySlotOp op st) s

/-- The slot state at process start: counter never set, `_updates` at its
default `0`, no stored value. -/
def initSlot (T : Type) : SlotState T :=
  { threadRecycles := none, updates := 0, cell := none }

/-- Spec-level predicate "a `set` has occurred since the recycle counter last
advanced", computed from the trace alone.  An `inc` advances the counter's
value except on the very first call, which only initializes it to `0` (the
`LookupError` branch of `increment_thread_recycles`).  The first argument
records whether an `inc` has occurred before. -/
def armedSpecAux {T : Type} (incSeen : Bool) (flag : Bool) :
    List (SlotOp T) → Bool
  | [] => flag
  | op :: rest =>
    match op with
    | .inc => armedSpecAux true (if incSeen then false else flag) rest
    | .setOp _ => armedSpecAux incSeen true rest
    | .getOp _ => armedSpecAux incSeen flag rest

/-- "A `set` has occurred since the last generation advance", from the
initial state. -/
def armedSpec {T : Type} (ops : List (SlotOp T)) : Bool :=
  armedSpecAux false false ops

/-- The inductive invariant tying a slot state to the trace-level predicate
`armedSpecAux`: `incSeen` records whether the recycle counter has ever been
set, `flag` records whether a `set` has occurred since the counter's value
last advanced, and `flag` holds exactly when `_updates` is one above the
counter (in which case a value is stored). -/
def TraceInv {T : Type} (s : SlotState T) (incSeen flag : Bool) : Prop :=
  s.threadRecycles.isSome = incSeen ∧
  s.updates ≤ effR s + 1 ∧
  ((s.updates = effR s + 1) ↔ flag = true) ∧
  (flag = true → s.cell.isSome)

end ContextsWrapper

namespace RateLimit

/-- Redis commands the rate limiter issues, recorded so that claims about
contacting (or not contacting) the shared store are expressible. -/
inductive RedisOp where
  | existsCmd (key : String)
  | setexCmd (key : String) (ttlSeconds : Nat) (value : Int)
  | getCmd (key : String)
  | expireCmd (key : String) (ttlSeconds : Nat)
  | hgetallCmd (key : String)
  | hlenCmd (key : String)
  | hsetCmd (key : String) (field : String) (value : ℤ)
  | hdelCmd (key : String) (fields : List String)
  deriving Repr, DecidableEq

/-- Redis `HSET`: overwrite the field if present, else append it. -/
def hashSet (h : List (String × ℤ)) (field : String) (v : ℤ) :
    List (String × ℤ) :=
  if h.any (fun p => p.1 == field) then
    h.map (fun p => if p.1 == field then (field, v) else p)
  else h ++ [(field, v)]

/-- Redis `HDEL` of a list of fields; deleting absent fields is a no-op. -/
def hashDel (h : List (String × ℤ)) (fields : List String) :
    List (String × ℤ) :=
  h.filter (fun p => !(fields.contains p.1))

/-- Redis `HGET` of one field. -/
def hashLookup (h : List (String × ℤ)) (field : String) : Option ℤ :=
  (h.find? (fun p => p.1 == field)).map Prod.snd

/-- The slice of the redis store one limiter uses: its
`max_active_requests` string record and its `active_requests` hash
(field = request id, value = issue timestamp).  `none` / `[]` model the key
not existing. -/
structure RedisState where
  maxActiveRecord : Option Int
  activeRequests : List (String × ℤ)
  deriving Repr, DecidableEq

/-- One `RateLimit` instance: its construction-time client id, its local
view of the limit, the time of the last flush (`none` models the initial
`float("-inf")`), and the shared store. -/
structure RateLimitState where
  client_id : String
  max_active_requests : Int
  last_recalculate_time : Option ℤ
  store : RedisState
  deriving Repr, DecidableEq

def UNLIMITED_REQUEST_ID : String := "unlimited_request_id"

def REQUEST_MAX_ALIVE_TIME : ℤ := 10 * 60

def ACTIVE_REQUESTS_COUNT_FLUSH_INTERVAL : ℤ := 5 * 60

def max_active_requests_key (s : RateLimitState) : String :=
  "dify:rate_limit:" ++ s.client_id ++ ":max_active_requests"

def active_requests_key (s : RateLimitState) : String :=
  "dify:rate_limit:" ++ s.client_id ++ ":active_requests"

/-- `RateLimit.disabled`: `max_active_requests <= 0`. -/
def disabled (s : RateLimitState) : Bool :=
  decide (s.max_active_requests ≤ 0)

/-- `RateLimit.flush_cache`.  Returns the updated limiter state and the
redis commands issued, in order.  `now` is the `time.time()` reading. -/
def flush_cache (now : ℤ) (use_local_value : Bool) (s : RateLimitState) :
    RateLimitState × List RedisOp :=
  if disabled s then (s, [])
  else
    let s := { s with last_recalculate_time := some now }
    let maxStep : RateLimitState × List RedisOp :=
      if use_local_value then
        ({ s with store := { s.store with
            maxActiveRecord := some s.max_active_requests } },
         [.setexCmd (max_active_requests_key s) 86400 s.max_active_requests])
      else
        match s.store.maxActiveRecord with
        | none =>
          ({ s with store := { s.store with
              maxActiveRecord := some s.max_active_requests } },
           [.existsCmd (max_active_requests_key s),
            .setexCmd (max_active_requests_key s) 86400 s.max_active_requests])
        | some central =>
          ({ s with max_active_requests := central },
           [.existsCmd (max_active_requests_key s),
            .getCmd (max_active_requests_key s),
            .expireCmd (max_active_requests_key s) 86400])
    let s := maxStep.1
    let log := maxStep.2
    if s.store.activeRequests.isEmpty then
      (s, log ++ [.existsCmd (active_requests_key s)])
    else
      let request_details := s.store.activeRequests
      let timeout_requests :=
        (request_details.filter
          (fun p => decide (now - p.2 > REQUEST_MAX_ALIVE_TIME))).map Prod.fst
      let log := log ++ [.existsCmd (active_requests_key s),
        .hgetallCmd (active_requests_key s),
        .expireCmd (active_requests_key s) 86400]
      if timeout_requests.isEmpty then (s, log)
      else
        ({ s with store := { s.store with
            activeRequests := hashDel s.store.activeRequests timeout_requests } },
         log ++ [.hdelCmd (active_requests_key s) timeout_requests])

/-- The `AppInvokeQuotaExceededError` raised by `enter`, carrying the client
id and the limit interpolated into its message. -/
structure QuotaExceededError where
  client_id : String
  limit : Int
  deriving Repr, DecidableEq

/-- The recalculation condition in `enter`:
`time.time() - self.last_recalculate_time > _ACTIVE_REQUESTS_COUNT_FLUSH_INTERVAL`
(true when the last time is still the initial `-inf`). -/
def shouldFlush (now : ℤ) (s : RateLimitState) : Bool :=
  match s.last_recalculate_time with
  | none => true
  | some t => decide (now - t > ACTIVE_REQUESTS_COUNT_FLUSH_INTERVAL)

/-- `RateLimit.enter`.  `fresh_id` stands for the `uuid4` string the code
would generate when `request_id` is `None` or empty (both are falsy).
Returns the result (`request_id` or the quota error), the new state, and the
redis commands issued. -/
def enter (now : ℤ) (fresh_id : String) (request_id : Option String)
    (s : RateLimitState) :
    Except QuotaExceededError String × RateLimitState × List RedisOp :=
  if disabled s then (.ok UNLIMITED_REQUEST_ID, s, [])
  else
    let flushStep :=
      if shouldFlush now s then flush_cache now false s else (s, [])
    let s := flushStep.1
    let log := flushStep.2
    let rid := match request_id with
      | none => fresh_id
      | some r => if r == "" then fresh_id else r
    let active_requests_count := s.store.activeRequests.length
    if decide ((active_requests_count : Int) ≥ s.max_active_requests) then
      (.error { client_id := s.client_id, limit := s.max_active_requests },
       s, log ++ [.hlenCmd (active_requests_key s)])
    else
      (.ok rid,
       { s with store := { s.store with
           activeRequests := hashSet s.store.activeRequests rid now } },
       log ++ [.hlenCmd (active_requests_key s),
         .hsetCmd (active_requests_key s) rid now])

/-- `RateLimit.exit`: no-op on the unlimited sentinel, otherwise delete the
ticket's hash field. -/
def exit (request_id : String) (s : RateLimitState) :
    RateLimitState × List RedisOp :=
  if request_id == UNLIMITED_REQUEST_ID then (s, [])
  else
    ({ s with store := { s.store with
        activeRequests := hashDel s.store.activeRequests [request_id] } },
     [.hdelCmd (active_requests_key s) [request_id]])

end RateLimit

namespace RateLimit

/-- What the wrapped python generator does once its values run out: exhaust
(raise `StopIteration`) or raise an error during production. -/
inductive GenTerminal where
  | exhausted
  | failed (e : String)
  deriving Repr, DecidableEq

/-- Model of the wrapped python generator: the values still to be yielded,
its terminal behaviour, whether it has a `close` attribute, and bookkeeping
(`nextCalls`, `closeCalled`) making "the wrapped generator was not touched"
and "its close hook was invoked" observable. -/
structure PyGen where
  items : List String
  terminal : GenTerminal
  hasClose : Bool
  nextCalls : Nat
  closeCalled : Bool
  deriving Repr, DecidableEq

/-- Outcome of one `next()` call as seen by the caller. -/
inductive PyNextResult where
  | yielded (v : String)
  | stopIteration
  | raised (e : String)
  deriving Repr, DecidableEq

/-- One `next()` on the underlying generator. -/
def pyNext (g : PyGen) : PyNextResult × PyGen :=
  let g := { g with nextCalls := g.nextCalls + 1 }
  match g.items with
  | v :: rest => (.yielded v, { g with items := rest })
  | [] =>
    match g.terminal with
    | .exhausted => (.stopIteration, g)
    | .failed e => (.raised e, g)

end RateLimit

/-- `RateLimitGenerator`: the releasing wrapper around a generator. -/
structure RateLimitGenerator where
  rate_limit : RateLimit.RateLimitState
  generator : RateLimit.PyGen
  request_id : String
  closed : Bool
  deriving Repr, DecidableEq

namespace RateLimitGenerator

/-- `RateLimitGenerator.close`: on the first call, mark the wrapper closed,
call `RateLimit.exit` for the ticket, and call the wrapped generator's own
`close` when it has one.  Returns the new state, the number of
`RateLimit.exit` calls made (0 or 1), and the redis commands issued. -/
def close (w : RateLimitGenerator) :
    RateLimitGenerator × Nat × List RateLimit.RedisOp :=
  if w.closed then (w, 0, [])
  else
    let exitStep := RateLimit.exit w.request_id w.rate_limit
    let g := if w.generator.hasClose
      then { w.generator with closeCalled := true } else w.generator
    ({ w with closed := true, rate_limit := exitStep.1, generator := g },
     1, exitStep.2)

/-- `RateLimitGenerator.__next__`: immediate `StopIteration` when closed;
otherwise drive the wrapped generator, and on any exception (including
`StopIteration` from exhaustion) run `close` and reraise. -/
def next (w : RateLimitGenerator) :
    RateLimit.PyNextResult × RateLimitGenerator × Nat × List RateLimit.RedisOp :=
  if w.closed then (.stopIteration, w, 0, [])
  else
    let stepped := RateLimit.pyNext w.generator
    let w := { w with generator := stepped.2 }
    match stepped.1 with
    | .yielded v => (.yielded v, w, 0, [])
    | .stopIteration =>
      let c := close w
      (.stopIteration, c.1, c.2.1, c.2.2)
    | .raised e =>
      let c := close w
      (.raised e, c.1, c.2.1, c.2.2)

/-- One external operation on the wrapper. -/
inductive RLGenOp where
  | nextOp
  | closeOp
  deriving Repr, DecidableEq

/-- Apply one operation, keeping the state and the number of
`RateLimit.exit` calls it made. -/
def applyOp (op : RLGenOp) (w : RateLimitGenerator) :
    RateLimitGenerator × Nat :=
  match op with
  | .nextOp => let r := next w; (r.2.1, r.2.2.1)
  | .closeOp => let r := close w; (r.1, r.2.1)

/-- Run a list of operations, accumulating the `RateLimit.exit` call count. -/
def runOps (ops : List RLGenOp) (w : RateLimitGenerator) :
    RateLimitGenerator × Nat :=
  match ops with
  | [] => (w, 0)
  | op :: rest =>
    let s1 := applyOp op w
    let s2 := runOps rest s1.1
    (s2.1, s1.2 + s2.2)

end RateLimitGenerator

namespace RateLimit

/-- The argument of `RateLimit.generate`: a mapping (blocking result) or a
generator (streamed result). -/
inductive GenerateInput where
  | mapping (m : List (String × String))
  | stream (g : PyGen)
  deriving Repr, DecidableEq

/-- The value `RateLimit.generate` returns. -/
inductive GenerateOutput where
  | mapping (m : List (String × String))
  | wrapped (w : RateLimitGenerator)
  deriving Repr, DecidableEq

/-- `RateLimit.generate`: a mapping passes through unchanged; anything else
is wrapped in a `RateLimitGenerator`. -/
def generate (s : RateLimitState) (generator : GenerateInput)
    (request_id : String) : GenerateOutput :=
  match generator with
  | .mapping m => .mapping m
  | .stream g =>
    .wrapped { rate_limit := s, generator := g, request_id := request_id,
               closed := false }

/-- Phase of one in-flight `enter` call, at the granularity of its two redis
round trips: the `hlen` admission check and the `hset` registration
(lines 78-84 of `rate_limit.py`). -/
inductive EnterPhase where
  | toCheck
  | toRegister
  | admitted
  | refused
  deriving Repr, DecidableEq

/-- One process's in-flight `enter` call for the race model. -/
structure EnterProc where
  request_id : String
  phase : EnterPhase
  deriving Repr, DecidableEq

/-- Two independent limiter instances for the same client racing through
`enter` against the one shared hash. -/
structure RaceState where
  limit : Int
  activeRequests : List (String × ℤ)
  procA : EnterProc
  procB : EnterProc
  deriving Repr, DecidableEq

/-- Advance one process's `enter` by one redis round trip: the check reads
the hash length and compares it to the limit; the registration writes the
new field. -/
def enterMicroStep (now : ℤ) (limit : Int) (h : List (String × ℤ))
    (p : EnterProc) : EnterProc × List (String × ℤ) :=
  match p.phase with
  | .toCheck =>
    if decide ((h.length : Int) ≥ limit) then ({ p with phase := .refused }, h)
    else ({ p with phase := .toRegister }, h)
  | .toRegister => ({ p with phase := .admitted }, hashSet h p.request_id now)
  | .admitted => (p, h)
  | .refused => (p, h)

/-- Scheduler step: `true` advances process B, `false` advances process A. -/
def raceStep (now : ℤ) (s : RaceState) (stepB : Bool) : RaceState :=
  if stepB then
    let r := enterMicroStep now s.limit s.activeRequests s.procB
    { s with procB := r.1, activeRequests := r.2 }
  else
    let r := enterMicroStep now s.limit s.activeRequests s.procA
    { s with procA := r.1, activeRequests := r.2 }

/-- Run a schedule of interleaved micro steps. -/
def runRace (now : ℤ) (sched : List Bool) (s : RaceState) : RaceState :=
  sched.foldl (raceStep now) s

end RateLimit

/-- Sample limiter state for concrete wrapper runs. -/
def sampleLimiter : RateLimit.RateLimitState :=
  { client_id := "appA", max_active_requests := 2,
    last_recalculate_time := some 0,
    store := { maxActiveRecord := some 2, activeRequests := [("r", 0)] } }

/-- Sample wrapped generator yielding three values then exhausting. -/
def sampleGenExhaust : RateLimit.PyGen :=
  { items := ["a", "b", "c"], terminal := .exhausted,
    hasClose := true, nextCalls := 0, closeCalled := false }

/-- Sample wrapped generator failing immediately with `"boom"`. -/
def sampleGenFail : RateLimit.PyGen :=
  { items := [], terminal := .failed "boom",
    hasClose := true, nextCalls := 0, closeCalled := false }

/-- Sample open wrapper around `sampleGenExhaust`. -/
def sampleWrapper : RateLimitGenerator :=
  { rate_limit := sampleLimiter, generator := sampleGenExhaust,
    request_id := "r", closed := false }

/-- Sample open wrapper around `sampleGenFail`. -/
def sampleWrapperFail : RateLimitGenerator :=
  { rate_limit := sampleLimiter, generator := sampleGenFail,
    request_id := "r", closed := false }


namespace ContextsWrapper

theorem set_threadRecycles {T : Type} (v : T) (s : SlotState T) :
    (set v s).threadRecycles = s.threadRecycles := by
  simp only [set]
  split <;> split <;> rfl

theorem set_cell {T : Type} (v : T) (s : SlotState T) :
    (set v s).cell = some v := rfl

theorem effR_set {T : Type} (v : T) (s : SlotState T) :
    effR (set v s) = effR s := by
  simp only [effR, set_threadRecycles]

theorem set_updates_gt {T : Type} (v : T) (s : SlotState T) :
    effR s < (set v s).updates := by
  simp only [set]
  split <;> split <;> simp_all
  omega

theorem set_updates_eq {T : Type} (v : T) (s : SlotState T)
    (h : s.updates ≤ effR s + 1) :
    (set v s).updates = effR s + 1 := by
  simp only [set]
  split <;> split <;> simp_all
  omega

theorem get_snd {T : Type} (d : Option T) (s : SlotState T) :
    (get d s).2 = if effR s > s.updates
      then { s with updates := effR s } else s := by
  simp only [get]
  cases d <;> cases hc : s.cell <;> split_ifs <;> simp_all

theorem get_threadRecycles {T : Type} (d : Option T) (s : SlotState T) :
    (get d s).2.threadRecycles = s.threadRecycles := by
  rw [get_snd]
  split_ifs <;> rfl

theorem get_cell {T : Type} (d : Option T) (s : SlotState T) :
    (get d s).2.cell = s.cell := by
  rw [get_snd]
  split_ifs <;> rfl

theorem get_of_armed {T : Type} (d : Option T) (s : SlotState T) (v : T)
    (h : effR s < s.updates) (hc : s.cell = some v) :
    (get d s).1 = .value v := by
  have h1 : ¬ effR s > s.updates := by omega
  cases d <;> simp [get, h1, h, hc]

theorem get_of_not_armed {T : Type} (s : SlotState T)
    (h : ¬ effR s < s.updates) :
    (get none s).1 = GetResult.lookupError ∧
    ∀ d : T, (get (some d) s).1 = .value d := by
  refine ⟨?_, fun d => ?_⟩ <;> simp [get, h]

theorem increment_threadRecycles_some {T : Type} (s : SlotState T) (k : Nat)
    (hk : s.threadRecycles = some k) :
    (increment s).threadRecycles = some (k + 1) ∧
    (increment s).updates = s.updates ∧ (increment s).cell = s.cell := by
  simp [increment, hk]

end ContextsWrapper

namespace ContextsWrapper

theorem traceInv_increment {T : Type} (s : SlotState T) (incSeen flag : Bool)
    (h : TraceInv s incSeen flag) :
    TraceInv (increment s) true (if incSeen then false else flag) := by
  obtain ⟨h1, h2, h3, h4⟩ := h
  cases hk : s.threadRecycles with
  | none =>
    have hinc : incSeen = false := by simp [hk] at h1; exact h1
    have he : effR s = 0 := by simp [effR, hk]
    have hs : increment s = { s with threadRecycles := some 0 } := by
      simp [increment, hk]
    subst hinc
    rw [if_neg (by simp), hs]
    have he2 : effR { s with threadRecycles := some 0 } = 0 := rfl
    refine ⟨rfl, ?_, ?_, h4⟩
    · show s.updates ≤ effR { s with threadRecycles := some 0 } + 1
      rw [he2]
      omega
    · show (s.updates = effR { s with threadRecycles := some 0 } + 1) ↔ _
      rw [he2, ← he]
      exact h3
  | some k =>
    have hinc : incSeen = true := by simp [hk] at h1; exact h1
    have he : effR s = k := by simp [effR, hk]
    have hs : increment s = { s with threadRecycles := some (k + 1) } := by
      simp [increment, hk]
    subst hinc
    rw [if_pos rfl, hs]
    have he2 : effR { s with threadRecycles := some (k + 1) } = k + 1 := rfl
    refine ⟨rfl, ?_, ?_, by simp⟩
    · show s.updates ≤ effR { s with threadRecycles := some (k + 1) } + 1
      rw [he2]
      omega
    · show (s.updates = effR { s with threadRecycles := some (k + 1) } + 1) ↔ _
      rw [he2]
      constructor
      · intro hc
        omega
      · intro hc
        exact absurd hc (by simp)

theorem traceInv_set {T : Type} (v : T) (s : SlotState T) (incSeen flag : Bool)
    (h : TraceInv s incSeen flag) :
    TraceInv (set v s) incSeen true := by
  obtain ⟨h1, h2, h3, h4⟩ := h
  refine ⟨by rw [set_threadRecycles]; exact h1, ?_, ?_, ?_⟩
  · rw [set_updates_eq v s h2, effR_set]
  · rw [set_updates_eq v s h2, effR_set]
    simp
  · intro _
    simp [set_cell]

theorem traceInv_get {T : Type} (d : Option T) (s : SlotState T)
    (incSeen flag : Bool) (h : TraceInv s incSeen flag) :
    TraceInv ((get d s).2) incSeen flag := by
  obtain ⟨h1, h2, h3, h4⟩ := h
  rw [TraceInv, get_snd]
  split_ifs with hgt
  · have hflag : flag = false := by
      rcases flag with _ | _
      · rfl
      · exfalso
        have := h3.mpr rfl
        omega
    subst hflag
    have he : effR { s with updates := effR s } = effR s := rfl
    refine ⟨h1, ?_, ?_, by simp⟩
    · show effR s ≤ effR { s with updates := effR s } + 1
      rw [he]
      omega
    · show (effR s = effR { s with updates := effR s } + 1) ↔ _
      rw [he]
      constructor
      · intro hc
        omega
      · intro hc
        exact absurd hc (by simp)
  · exact ⟨h1, h2, h3, h4⟩

theorem runSlotOps_nil {T : Type} (s : SlotState T) :
    runSlotOps [] s = s := rfl

theorem runSlotOps_cons {T : Type} (op : SlotOp T) (ops : List (SlotOp T))
    (s : SlotState T) :
    runSlotOps (op :: ops) s = runSlotOps ops (applySlotOp op s) := rfl

theorem traceInv_run {T : Type} (ops : List (SlotOp T)) (s : SlotState T)
    (incSeen flag : Bool) (h : TraceInv s incSeen flag) :
    ∃ incSeen2 : Bool,
      TraceInv (runSlotOps ops s) incSeen2 (armedSpecAux incSeen flag ops) := by
  induction ops generalizing s incSeen flag with
  | nil => exact ⟨incSeen, h⟩
  | cons op rest ih =>
    rw [runSlotOps_cons]
    cases op with
    | inc => exact ih _ _ _ (traceInv_increment s incSeen flag h)
    | setOp v => exact ih _ _ _ (traceInv_set v s incSeen flag h)
    | getOp d => exact ih _ _ _ (traceInv_get d s incSeen flag h)

theorem traceInv_init (T : Type) : TraceInv (initSlot T) false false := by
  refine ⟨rfl, by simp [initSlot, effR], by simp [initSlot, effR], by simp⟩

end ContextsWrapper

/-- C2: for a recycle-safe slot (in a context whose recycle counter has been
initialized and whose  `_updates` satisfies the reachable-state bound),
`set x` then `get` with no intervening generation advance returns `x`; after
the recycle generation advances with no intervening `set`, `get` with no
default raises `LookupError` and `get default` returns the default; a
subsequent `set y` in the new generation makes `get` return `y` — a value
stored in an earlier generation is not returned. -/
theorem recyclable_slot_generation_scenario {T : Type}
    (s : ContextsWrapper.SlotState T) (k : Nat) (x y d : T)
    (hk : s.threadRecycles = some k) (hinv : s.updates ≤ k + 1) :
    (ContextsWrapper.get none (ContextsWrapper.set x s)).1 = .value x ∧
    (ContextsWrapper.get none
      (ContextsWrapper.increment (ContextsWrapper.set x s))).1 =
      .lookupError ∧
    (ContextsWrapper.get (some d)
      (ContextsWrapper.increment (ContextsWrapper.set x s))).1 = .value d ∧
    (ContextsWrapper.get none (ContextsWrapper.set y
      (ContextsWrapper.increment (ContextsWrapper.set x s)))).1 = .value y := by
  open ContextsWrapper in
  have he : effR s = k := by simp [effR, hk]
  have hinv2 : s.updates ≤ effR s + 1 := by omega
  have h1 := set_updates_eq x s hinv2
  have harm : effR (set x s) < (set x s).updates := by
    rw [effR_set]
    exact set_updates_gt x s
  have hcell : (set x s).cell = some x := set_cell x s
  have hks : (set x s).threadRecycles = some k := by
    rw [set_threadRecycles, hk]
  obtain ⟨hit, hiu, hic⟩ := increment_threadRecycles_some (set x s) k hks
  have hie : effR (increment (set x s)) = k + 1 := by simp [effR, hit]
  have hnarm : ¬ effR (increment (set x s)) <
      (increment (set x s)).updates := by
    rw [hie, hiu, h1, he]
    omega
  refine ⟨get_of_armed none (set x s) x harm hcell, ?_, ?_, ?_⟩
  · exact (get_of_not_armed (increment (set x s)) hnarm).1
  · exact (get_of_not_armed (increment (set x s)) hnarm).2 d
  · refine get_of_armed none _ y ?_ (set_cell y (increment (set x s)))
    rw [effR_set]
    exact set_updates_gt y (increment (set x s))

/-- C2 witness: the scenario at a concrete slot state. -/
theorem recyclable_slot_generation_scenario_witness :
    let s : ContextsWrapper.SlotState Nat :=
      { threadRecycles := some 3, updates := 2, cell := none }
    (ContextsWrapper.get none (ContextsWrapper.set 10 s)).1 = .value 10 ∧
    (ContextsWrapper.get none
      (ContextsWrapper.increment (ContextsWrapper.set 10 s))).1 =
      .lookupError ∧
    (ContextsWrapper.get (some 7)
      (ContextsWrapper.increment (ContextsWrapper.set 10 s))).1 = .value 7 ∧
    (ContextsWrapper.get none (ContextsWrapper.set 9
      (ContextsWrapper.increment (ContextsWrapper.set 10 s)))).1 =
      .value 9 :=
  recyclable_slot_generation_scenario _ 3 10 9 7 rfl (by decide)

namespace ContextsWrapper

theorem inv_increment {T : Type} (s : SlotState T)
    (h : s.updates ≤ effR s + 1) :
    (increment s).updates ≤ effR (increment s) + 1 := by
  cases hk : s.threadRecycles with
  | none =>
    have h0 : effR s = 0 := by simp [effR, hk]
    have hs : increment s = { s with threadRecycles := some 0 } := by
      simp [increment, hk]
    rw [hs]
    show s.updates ≤ effR { s with threadRecycles := some 0 } + 1
    have he : effR { s with threadRecycles := some 0 } = 0 := rfl
    omega
  | some k =>
    have h0 : effR s = k := by simp [effR, hk]
    have hs : increment s = { s with threadRecycles := some (k + 1) } := by
      simp [increment, hk]
    rw [hs]
    show s.updates ≤ effR { s with threadRecycles := some (k + 1) } + 1
    have he : effR { s with threadRecycles := some (k + 1) } = k + 1 := rfl
    omega

theorem inv_set {T : Type} (v : T) (s : SlotState T)
    (h : s.updates ≤ effR s + 1) :
    (set v s).updates ≤ effR (set v s) + 1 := by
  rw [set_updates_eq v s h, effR_set]

theorem inv_get {T : Type} (d : Option T) (s : SlotState T)
    (h : s.updates ≤ effR s + 1) :
    (get d s).2.updates ≤ effR (get d s).2 + 1 := by
  rw [get_snd]
  split_ifs with hgt
  · show effR s ≤ effR { s with updates := effR s } + 1
    have he : effR { s with updates := effR s } = effR s := rfl
    omega
  · exact h

end ContextsWrapper

/-- C7 counterexample: a single `set` on the freshly initialized slot ends
with the slot's update generation (`_updates = 1`) strictly above the
current recycle generation (`0`), refuting "a slot's update generation never
exceeds the current recycle generation at the end of any operation". -/
theorem slot_update_generation_bound_counterexample :
    ContextsWrapper.effR
      (ContextsWrapper.runSlotOps [ContextsWrapper.SlotOp.setOp (1 : Nat)]
        (ContextsWrapper.initSlot Nat)) <
    (ContextsWrapper.runSlotOps [ContextsWrapper.SlotOp.setOp (1 : Nat)]
      (ContextsWrapper.initSlot Nat)).updates := by
  decide

/-- C7 amended: at the end of any sequence of `get`, `set`, and
recycle-generation-increment operations, the slot's update generation never
exceeds the current recycle generation *plus one* (starting from any state
satisfying that same bound, in particular the initial state). -/
theorem slot_update_generation_bound {T : Type}
    (ops : List (ContextsWrapper.SlotOp T)) (s : ContextsWrapper.SlotState T)
    (h : s.updates ≤ ContextsWrapper.effR s + 1) :
    (ContextsWrapper.runSlotOps ops s).updates ≤
      ContextsWrapper.effR (ContextsWrapper.runSlotOps ops s) + 1 := by
  induction ops generalizing s with
  | nil => exact h
  | cons op rest ih =>
    rw [ContextsWrapper.runSlotOps_cons]
    refine ih _ ?_
    cases op with
    | inc => exact ContextsWrapper.inv_increment s h
    | setOp v => exact ContextsWrapper.inv_set v s h
    | getOp d => exact ContextsWrapper.inv_get d s h

/-- C7 amended witness: the bound evaluated after a concrete trace. -/
theorem slot_update_generation_bound_witness :
    (ContextsWrapper.runSlotOps
      [ContextsWrapper.SlotOp.inc, ContextsWrapper.SlotOp.setOp (5 : Nat),
       ContextsWrapper.SlotOp.inc, ContextsWrapper.SlotOp.getOp none]
      (ContextsWrapper.initSlot Nat)).updates ≤
      ContextsWrapper.effR (ContextsWrapper.runSlotOps
        [ContextsWrapper.SlotOp.inc, ContextsWrapper.SlotOp.setOp (5 : Nat),
         ContextsWrapper.SlotOp.inc, ContextsWrapper.SlotOp.getOp none]
        (ContextsWrapper.initSlot Nat)) + 1 :=
  slot_update_generation_bound _ _ (by decide)

/-- C9: from the initial state, at the end of any sequence of operations the
update counter is at most the recycle counter plus one; it equals the
recycle counter plus one exactly when a `set` has occurred since the recycle
counter's value last advanced (`armedSpec`; the very first
`increment_thread_recycles` call only initializes the counter to `0` and
does not advance its value); and that is exactly the condition under which
`get` returns the stored value (otherwise `get` raises `LookupError` or
returns the supplied default). -/
theorem slot_armed_characterization (T : Type)
    (ops : List (ContextsWrapper.SlotOp T)) :
    ((ContextsWrapper.runSlotOps ops (ContextsWrapper.initSlot T)).updates ≤
      ContextsWrapper.effR
        (ContextsWrapper.runSlotOps ops (ContextsWrapper.initSlot T)) + 1) ∧
    (((ContextsWrapper.runSlotOps ops (ContextsWrapper.initSlot T)).updates =
      ContextsWrapper.effR
        (ContextsWrapper.runSlotOps ops (ContextsWrapper.initSlot T)) + 1) ↔
      ContextsWrapper.armedSpec ops = true) ∧
    (ContextsWrapper.armedSpec ops = true →
      ∃ v, (ContextsWrapper.runSlotOps ops
          (ContextsWrapper.initSlot T)).cell = some v ∧
        ∀ d, (ContextsWrapper.get d (ContextsWrapper.runSlotOps ops
          (ContextsWrapper.initSlot T))).1 = .value v) ∧
    (ContextsWrapper.armedSpec ops = false →
      (ContextsWrapper.get none (ContextsWrapper.runSlotOps ops
        (ContextsWrapper.initSlot T))).1 = .lookupError ∧
      ∀ d : T, (ContextsWrapper.get (some d) (ContextsWrapper.runSlotOps ops
        (ContextsWrapper.initSlot T))).1 = .value d) := by
  open ContextsWrapper in
  obtain ⟨incSeen2, h1, h2, h3, h4⟩ :=
    ContextsWrapper.traceInv_run ops (ContextsWrapper.initSlot T) false false
      (ContextsWrapper.traceInv_init T)
  refine ⟨h2, h3, ?_, ?_⟩
  · intro ha
    obtain ⟨v, hv⟩ := Option.isSome_iff_exists.mp (h4 ha)
    have harm : effR (runSlotOps ops (initSlot T)) <
        (runSlotOps ops (initSlot T)).updates := by
      have := h3.mpr ha
      omega
    exact ⟨v, hv, fun d => ContextsWrapper.get_of_armed d _ v harm hv⟩
  · intro ha
    have hne : (runSlotOps ops (initSlot T)).updates ≠
        effR (runSlotOps ops (initSlot T)) + 1 := by
      intro hc
      have hb : ContextsWrapper.armedSpec ops = true := h3.mp hc
      rw [hb] at ha
      exact absurd ha (by simp)
    have hnarm : ¬ effR (runSlotOps ops (initSlot T)) <
        (runSlotOps ops (initSlot T)).updates := by omega
    exact ContextsWrapper.get_of_not_armed _ hnarm

/-- C9 witness: the characterization evaluated on the trace
`[inc, set 5]`. -/
theorem slot_armed_characterization_witness :
    ∃ v, (ContextsWrapper.runSlotOps
        [ContextsWrapper.SlotOp.inc, ContextsWrapper.SlotOp.setOp (5 : Nat)]
        (ContextsWrapper.initSlot Nat)).cell = some v ∧
      ∀ d, (ContextsWrapper.get d (ContextsWrapper.runSlotOps
        [ContextsWrapper.SlotOp.inc, ContextsWrapper.SlotOp.setOp (5 : Nat)]
        (ContextsWrapper.initSlot Nat))).1 = .value v :=
  (slot_armed_characterization Nat _).2.2.1 (by decide)

namespace RateLimit

theorem find?_map_overwrite (f : String) (v : ℤ) (h : List (String × ℤ)) :
    (h.map (fun p => if p.1 == f then (f, v) else p)).find?
        (fun p => p.1 == f) =
      if h.any (fun p => p.1 == f) then some (f, v) else none := by
  induction h with
  | nil => rfl
  | cons p t ih =>
    by_cases hp : p.1 = f
    · have hb : (p.1 == f) = true := by simp [hp]
      simp only [List.map_cons, hb, if_true, List.any_cons, Bool.true_or]
      rw [List.find?_cons_of_pos _ (by simp)]
    · have hb : (p.1 == f) = false := by simp [hp]
      simp only [List.map_cons, hb, if_false, List.any_cons, Bool.false_or]
      rw [List.find?_cons_of_neg _ (by simp [hb])]
      exact ih

theorem hashLookup_hashSet (h : List (String × ℤ)) (f : String) (v : ℤ) :
    hashLookup (hashSet h f v) f = some v := by
  unfold hashSet hashLookup
  by_cases hany : h.any (fun p => p.1 == f) = true
  · rw [if_pos hany, find?_map_overwrite, if_pos hany]
    rfl
  · rw [if_neg hany, List.find?_append]
    have hn : h.find? (fun p => p.1 == f) = none := by
      rw [List.find?_eq_none]
      intro p hp hc
      exact hany (List.any_eq_true.mpr ⟨p, hp, hc⟩)
    rw [hn]
    simp [List.find?]

theorem filter_keep_of_not_mem (f : String) (t : List (String × ℤ))
    (hf : f ∉ t.map Prod.fst) :
    t.filter (fun p => !([f].contains p.1)) = t := by
  rw [List.filter_eq_self]
  intro p hp
  have hne : p.1 ≠ f := by
    intro hc
    exact hf (hc ▸ List.mem_map_of_mem Prod.fst hp)
  simp [hne]

theorem hashDel_single_length (h : List (String × ℤ)) (f : String)
    (hnodup : (h.map Prod.fst).Nodup) (hmem : f ∈ h.map Prod.fst) :
    (hashDel h [f]).length + 1 = h.length := by
  induction h with
  | nil => simp at hmem
  | cons p t ih =>
    rw [List.map_cons, List.nodup_cons] at hnodup
    obtain ⟨hp1, hp2⟩ := hnodup
    by_cases hpf : p.1 = f
    · have hft : f ∉ t.map Prod.fst := hpf ▸ hp1
      unfold hashDel
      rw [List.filter_cons]
      have hb : ([f].contains p.1) = true := by simp [hpf]
      rw [hb]
      simp only [Bool.not_true, if_false]
      rw [show t.filter (fun p => !([f].contains p.1)) = t
        from filter_keep_of_not_mem f t hft]
      simp
    · have hmt : f ∈ t.map Prod.fst := by
        rw [List.map_cons] at hmem
        rcases List.mem_cons.mp hmem with hc | hc
        · exact absurd hc.symm hpf
        · exact hc
      unfold hashDel
      rw [List.filter_cons]
      have hb : ([f].contains p.1) = false := by simp [hpf]
      rw [hb]
      simp only [Bool.not_false, if_true]
      have := ih hp2 hmt
      unfold hashDel at this
      simp only [List.length_cons]
      omega

/-- Behaviour of `enter` for an enabled limiter inside the 5-minute
recalculation window, with an explicit non-empty request id. -/
theorem enter_spec (now : ℤ) (fresh rid : String) (s : RateLimitState)
    (hd : disabled s = false) (hnf : shouldFlush now s = false)
    (hrid : rid ≠ "") :
    enter now fresh (some rid) s =
      if (s.store.activeRequests.length : Int) ≥ s.max_active_requests then
        (.error { client_id := s.client_id, limit := s.max_active_requests },
         s, [.hlenCmd (active_requests_key s)])
      else
        (.ok rid, { s with store := { s.store with
            activeRequests := hashSet s.store.activeRequests rid now } },
         [.hlenCmd (active_requests_key s),
          .hsetCmd (active_requests_key s) rid now]) := by
  have hb : (rid == "") = false := by
    simp [hrid]
  simp only [enter, hd, hnf, Bool.false_eq_true, if_false, hb,
    decide_eq_true_eq]
  split <;> simp

/-- Behaviour of `exit` on a non-sentinel request id. -/
theorem exit_spec (rid : String) (s : RateLimitState)
    (h : rid ≠ UNLIMITED_REQUEST_ID) :
    exit rid s = ({ s with store := { s.store with
        activeRequests := hashDel s.store.activeRequests [rid] } },
      [.hdelCmd (active_requests_key s) [rid]]) := by
  have hb : (rid == UNLIMITED_REQUEST_ID) = false := by simp [h]
  simp [exit, hb]

end RateLimit

namespace RateLimit

/-- Behaviour of `enter` when the active count is strictly below the
limit. -/
theorem enter_ok_spec (now : ℤ) (fresh rid : String) (s : RateLimitState)
    (hd : disabled s = false) (hnf : shouldFlush now s = false)
    (hrid : rid ≠ "")
    (hlt : (s.store.activeRequests.length : Int) < s.max_active_requests) :
    (enter now fresh (some rid) s).1 = .ok rid ∧
    hashLookup (enter now fresh (some rid) s).2.1.store.activeRequests rid =
      some now := by
  rw [enter_spec now fresh rid s hd hnf hrid, if_neg (by omega)]
  exact ⟨rfl, hashLookup_hashSet _ _ _⟩

end RateLimit

/-- C1: a limiter with `max_active_requests = N > 0` whose active-request
hash already holds N entries (with distinct fields, as in a redis hash)
refuses the next `enter` with the quota error carrying the client id and the
configured limit — provided the 5-minute recalculation interval has not
elapsed, so `enter` does not flush (a flush could purge stale entries
first); after any one `exit` removes one of the entries, the next `enter`
succeeds and registers its request id with the current time in the hash. -/
theorem enter_quota_exceeded_at_capacity (s : RateLimit.RateLimitState)
    (N : Int) (now : ℤ) (fresh rid rid2 : String)
    (hN : s.max_active_requests = N) (hpos : 0 < N)
    (hlen : (s.store.activeRequests.length : Int) = N)
    (hnf : RateLimit.shouldFlush now s = false)
    (hnodup : (s.store.activeRequests.map Prod.fst).Nodup)
    (hmem : rid2 ∈ s.store.activeRequests.map Prod.fst)
    (hrid2 : rid2 ≠ RateLimit.UNLIMITED_REQUEST_ID)
    (hrid : rid ≠ "") :
    (RateLimit.enter now fresh (some rid) s).1 =
      .error { client_id := s.client_id, limit := N } ∧
    (RateLimit.enter now fresh (some rid) (RateLimit.exit rid2 s).1).1 =
      .ok rid ∧
    RateLimit.hashLookup (RateLimit.enter now fresh (some rid)
      (RateLimit.exit rid2 s).1).2.1.store.activeRequests rid = some now := by
  open RateLimit in
  have hd : disabled s = false := by
    simp only [disabled, decide_eq_false_iff_not]
    omega
  refine ⟨?_, ?_⟩
  · rw [RateLimit.enter_spec now fresh rid s hd hnf hrid,
      if_pos (by rw [hlen, hN])]
    rw [hN]
  · have hd1 : RateLimit.disabled (RateLimit.exit rid2 s).1 = false := by
      rw [RateLimit.exit_spec rid2 s hrid2]
      exact hd
    have hnf1 : RateLimit.shouldFlush now (RateLimit.exit rid2 s).1 =
        false := by
      rw [RateLimit.exit_spec rid2 s hrid2]
      exact hnf
    have hlt1 : (((RateLimit.exit rid2 s).1).store.activeRequests.length :
        Int) < ((RateLimit.exit rid2 s).1).max_active_requests := by
      rw [RateLimit.exit_spec rid2 s hrid2]
      show ((RateLimit.hashDel s.store.activeRequests [rid2]).length : Int) <
        s.max_active_requests
      have h2 := RateLimit.hashDel_single_length s.store.activeRequests rid2
        hnodup hmem
      omega
    exact RateLimit.enter_ok_spec now fresh rid _ hd1 hnf1 hrid hlt1

/-- C1 witness: limiter for client `appA` with limit 2 and two fresh active
entries refuses a third `enter`; after `exit id1`, `enter id3` succeeds and
records the current time. -/
theorem enter_quota_exceeded_at_capacity_witness :
    let s : RateLimit.RateLimitState :=
      { client_id := "appA", max_active_requests := 2,
        last_recalculate_time := some 1000,
        store := { maxActiveRecord := some 2,
                   activeRequests := [("id1", 999), ("id2", 999)] } }
    (RateLimit.enter 1001 "f" (some "id3") s).1 =
      .error { client_id := "appA", limit := 2 } ∧
    (RateLimit.enter 1001 "f" (some "id3") (RateLimit.exit "id1" s).1).1 =
      .ok "id3" ∧
    RateLimit.hashLookup (RateLimit.enter 1001 "f" (some "id3")
      (RateLimit.exit "id1" s).1).2.1.store.activeRequests "id3" =
      some 1001 :=
  enter_quota_exceeded_at_capacity _ 2 1001 "f" "id3" "id1" rfl (by decide)
    (by decide) (by decide) (by decide) (by decide) (by decide) (by decide)

/-- C4: `disabled` holds exactly when `max_active_requests ≤ 0`; a disabled
limiter's `enter` always returns the reserved unlimited sentinel id, leaves
the state unchanged and issues no redis command, and `exit` on any ticket
such an `enter` returned (always the sentinel) issues no redis command
either. -/
theorem disabled_no_store_contact (s : RateLimit.RateLimitState) :
    (RateLimit.disabled s = true ↔ s.max_active_requests ≤ 0) ∧
    (RateLimit.disabled s = true →
      ∀ (now : ℤ) (fresh : String) (request_id : Option String),
        RateLimit.enter now fresh request_id s =
          (.ok RateLimit.UNLIMITED_REQUEST_ID, s, []) ∧
        ∀ rid, (RateLimit.enter now fresh request_id s).1 = .ok rid →
          RateLimit.exit rid s = (s, [])) := by
  refine ⟨by simp [RateLimit.disabled], fun hd now fresh request_id => ?_⟩
  have he : RateLimit.enter now fresh request_id s =
      (.ok RateLimit.UNLIMITED_REQUEST_ID, s, []) := by
    simp [RateLimit.enter, hd]
  refine ⟨he, fun rid hr => ?_⟩
  rw [he] at hr
  have hrid : rid = RateLimit.UNLIMITED_REQUEST_ID := by
    cases hr
    rfl
  rw [hrid]
  simp [RateLimit.exit]

/-- C4 witness: a concrete disabled limiter. -/
theorem disabled_no_store_contact_witness :
    let s : RateLimit.RateLimitState :=
      { client_id := "appB", max_active_requests := 0,
        last_recalculate_time := none,
        store := { maxActiveRecord := none, activeRequests := [] } }
    RateLimit.enter 5 "f" none s =
      (.ok RateLimit.UNLIMITED_REQUEST_ID, s, []) ∧
    RateLimit.exit RateLimit.UNLIMITED_REQUEST_ID s = (s, []) := by
  intro s
  have h := (disabled_no_store_contact s).2 (by decide) 5 "f" none
  exact ⟨h.1, h.2 RateLimit.UNLIMITED_REQUEST_ID (by rw [h.1])⟩

namespace RateLimit

theorem hashDel_filter_timeout (h : List (String × ℤ))
    (q : String × ℤ → Bool) (hnodup : (h.map Prod.fst).Nodup) :
    hashDel h ((h.filter q).map Prod.fst) = h.filter (fun p => !(q p)) := by
  unfold hashDel
  apply List.filter_congr
  intro p hp
  congr 1
  by_cases hq : q p = true
  · have hmem : p.1 ∈ (h.filter q).map Prod.fst :=
      List.mem_map_of_mem Prod.fst (List.mem_filter.mpr ⟨hp, hq⟩)
    rw [hq]
    exact List.elem_eq_true_of_mem hmem
  · have hb : q p = false := by simpa using hq
    rw [hb]
    by_contra hc
    have hc2 : ((h.filter q).map Prod.fst).contains p.1 = true := by
      simpa using hc
    · have hmem : p.1 ∈ (h.filter q).map Prod.fst :=
        List.mem_of_elem_eq_true hc2
      obtain ⟨p2, hp2, hp2e⟩ := List.mem_map.mp hmem
      have hp2h : p2 ∈ h := (List.mem_filter.mp hp2).1
      have hpq : p2 = p :=
        List.inj_on_of_nodup_map hnodup hp2h hp hp2e
      rw [hpq] at hp2
      exact hq (List.mem_filter.mp hp2).2

end RateLimit

namespace RateLimit

/-- The effect of `flush_cache` on the active-request hash alone: untouched
when the hash key does not exist or no entry has timed out, otherwise the
timed-out fields are deleted. -/
theorem flush_cache_active (now : ℤ) (ulv : Bool) (s : RateLimitState)
    (hd : disabled s = false) :
    ((flush_cache now ulv s).1).store.activeRequests =
      (if s.store.activeRequests.isEmpty then s.store.activeRequests
       else
        if (((s.store.activeRequests.filter
            (fun p => decide (now - p.2 > REQUEST_MAX_ALIVE_TIME))).map
              Prod.fst).isEmpty) then s.store.activeRequests
        else hashDel s.store.activeRequests
          ((s.store.activeRequests.filter
            (fun p => decide (now - p.2 > REQUEST_MAX_ALIVE_TIME))).map
              Prod.fst)) := by
  simp only [flush_cache, hd, Bool.false_eq_true, if_false]
  cases ulv with
  | true =>
    rw [if_pos rfl]
    dsimp only
    split <;> [skip; split] <;> rfl
  | false =>
    simp only [Bool.false_eq_true, if_false]
    cases hrec : s.store.maxActiveRecord with
    | none =>
      dsimp only
      split <;> [skip; split] <;> rfl
    | some central =>
      dsimp only
      split <;> [skip; split] <;> rfl

end RateLimit

/-- C5: for an enabled limiter whose active-request hash has distinct
fields (as in a redis hash), `flush_cache` deletes exactly the entries whose
stored timestamp is older than the 10-minute max-alive threshold and keeps
all younger entries: the resulting hash is the original filtered to
`now - ts ≤ 600`. -/
theorem flush_cache_purges_exactly_stale (now : ℤ) (ulv : Bool)
    (s : RateLimit.RateLimitState)
    (hd : RateLimit.disabled s = false)
    (hnodup : (s.store.activeRequests.map Prod.fst).Nodup) :
    ((RateLimit.flush_cache now ulv s).1).store.activeRequests =
      s.store.activeRequests.filter
        (fun p => !(decide (now - p.2 > RateLimit.REQUEST_MAX_ALIVE_TIME))) := by
  rw [RateLimit.flush_cache_active now ulv s hd]
  by_cases hemp : s.store.activeRequests.isEmpty
  · rw [if_pos hemp]
    rw [List.isEmpty_iff.mp hemp]
    rfl
  · rw [if_neg hemp]
    by_cases ht : ((s.store.activeRequests.filter
        (fun p => decide (now - p.2 > RateLimit.REQUEST_MAX_ALIVE_TIME))).map
          Prod.fst).isEmpty
    · rw [if_pos ht]
      have hnil : s.store.activeRequests.filter
          (fun p => decide (now - p.2 > RateLimit.REQUEST_MAX_ALIVE_TIME)) =
          [] :=
        List.map_eq_nil_iff.mp (List.isEmpty_iff.mp ht)
      rw [eq_comm, List.filter_eq_self]
      intro p hp
      have hnp := List.filter_eq_nil_iff.mp hnil p hp
      simpa using hnp
    · rw [if_neg ht]
      exact RateLimit.hashDel_filter_timeout s.store.activeRequests
        (fun p => decide (now - p.2 > RateLimit.REQUEST_MAX_ALIVE_TIME)) hnodup

/-- C5 witness: entries timestamped 11 minutes and 1 minute ago; after
`flush_cache`, only the 1-minute entry remains. -/
theorem flush_cache_purges_exactly_stale_witness :
    let s : RateLimit.RateLimitState :=
      { client_id := "appA", max_active_requests := 2,
        last_recalculate_time := some 0,
        store := { maxActiveRecord := none,
                   activeRequests := [("old", 1000 - 660), ("new", 1000 - 60)] } }
    ((RateLimit.flush_cache 1000 false s).1).store.activeRequests =
      [("new", 940)] := by
  intro s
  rw [flush_cache_purges_exactly_stale 1000 false s (by decide) (by decide)]
  decide

/-- C8: the `hlen` admission check and the `hset` registration inside
`enter` are separate redis round trips, so two controllers for the same
client can interleave check-check-register-register: with limit 1 and an
empty hash, both processes are admitted and the hash ends with 2 > 1
entries. -/
theorem enter_check_register_race_exceeds_limit :
    let s0 : RateLimit.RaceState :=
      { limit := 1, activeRequests := [],
        procA := { request_id := "a", phase := .toCheck },
        procB := { request_id := "b", phase := .toCheck } }
    let sf := RateLimit.runRace 100 [false, true, false, true] s0
    sf.procA.phase = .admitted ∧ sf.procB.phase = .admitted ∧
    (sf.activeRequests.length : Int) > s0.limit := by
  decide

/-- C10: `generate` returns a mapping argument itself, unchanged and
unwrapped — so no releasing wrapper (and hence no `RateLimit.exit` path)
is ever attached to a mapping result — while a generator argument is
wrapped in a fresh (not yet closed) `RateLimitGenerator` carrying the
ticket. -/
theorem generate_mapping_passthrough (s : RateLimit.RateLimitState)
    (m : List (String × String)) (g : RateLimit.PyGen)
    (request_id : String) :
    RateLimit.generate s (.mapping m) request_id = .mapping m ∧
    (∀ w, RateLimit.generate s (.mapping m) request_id ≠ .wrapped w) ∧
    RateLimit.generate s (.stream g) request_id =
      .wrapped { rate_limit := s, generator := g, request_id := request_id,
                 closed := false } := by
  refine ⟨rfl, fun w hc => ?_, rfl⟩
  simp [RateLimit.generate] at hc

namespace RateLimitGenerator

theorem next_closed (w : RateLimitGenerator) (h : w.closed = true) :
    next w = (.stopIteration, w, 0, []) := by
  simp [next, h]

theorem close_closed (w : RateLimitGenerator) (h : w.closed = true) :
    close w = (w, 0, []) := by
  simp [close, h]

theorem applyOp_closed (op : RLGenOp) (w : RateLimitGenerator)
    (h : w.closed = true) : applyOp op w = (w, 0) := by
  cases op with
  | nextOp => simp [applyOp, next_closed w h]
  | closeOp => simp [applyOp, close_closed w h]

theorem applyOp_spec (op : RLGenOp) (w : RateLimitGenerator)
    (h : w.closed = false) :
    (applyOp op w).2 = (if (applyOp op w).1.closed = true then 1 else 0) := by
  cases op with
  | closeOp => simp [applyOp, close, h]
  | nextOp =>
    simp only [applyOp, next, h, Bool.false_eq_true, if_false]
    rcases hp : (RateLimit.pyNext w.generator).1 with v | _ | e <;>
      simp [hp, close, h]

theorem runOps_cons (op : RLGenOp) (ops : List RLGenOp)
    (w : RateLimitGenerator) :
    runOps (op :: ops) w =
      ((runOps ops (applyOp op w).1).1,
       (applyOp op w).2 + (runOps ops (applyOp op w).1).2) := rfl

theorem runOps_spec (ops : List RLGenOp) (w : RateLimitGenerator) :
    (w.closed = true → runOps ops w = (w, 0)) ∧
    (w.closed = false →
      (runOps ops w).2 =
        (if (runOps ops w).1.closed = true then 1 else 0)) := by
  induction ops generalizing w with
  | nil =>
    refine ⟨fun _ => rfl, fun h => ?_⟩
    simp [runOps, h]
  | cons op rest ih =>
    constructor
    · intro h
      rw [runOps_cons, applyOp_closed op w h]
      have h2 := (ih w).1 h
      simp [h2]
    · intro h
      rw [runOps_cons]
      rcases hcl : (applyOp op w).1.closed with _ | _
      · have hc0 : (applyOp op w).2 = 0 := by
          rw [applyOp_spec op w h, hcl]
          rfl
        have hr := (ih (applyOp op w).1).2 hcl
        rw [hc0, hr]
        simp
      · have hc1 : (applyOp op w).2 = 1 := by
          rw [applyOp_spec op w h, hcl]
          rfl
        have hrest := (ih (applyOp op w).1).1 hcl
        rw [hc1, hrest]
        simp [hcl]

end RateLimitGenerator

/-- C3: from an open wrapper, any interleaving of `next` and `close` calls
makes at most one `RateLimit.exit` call in total, and makes exactly one
precisely when a terminal event (exhaustion, a produced error, or an
explicit `close`) has occurred (the wrapper ends closed); moreover once the
wrapper is closed, `next` returns immediate exhaustion leaving the wrapper
(and the wrapped generator) untouched with no release, and `close` is a
no-op with no further release. -/
theorem rate_limit_generator_single_release
    (ops : List RateLimitGenerator.RLGenOp) (w : RateLimitGenerator)
    (h : w.closed = false) :
    (RateLimitGenerator.runOps ops w).2 ≤ 1 ∧
    ((RateLimitGenerator.runOps ops w).2 = 1 ↔
      (RateLimitGenerator.runOps ops w).1.closed = true) ∧
    (∀ w2 : RateLimitGenerator, w2.closed = true →
      RateLimitGenerator.next w2 = (.stopIteration, w2, 0, []) ∧
      RateLimitGenerator.close w2 = (w2, 0, [])) := by
  have hs := (RateLimitGenerator.runOps_spec ops w).2 h
  refine ⟨?_, ?_, fun w2 h2 =>
    ⟨RateLimitGenerator.next_closed w2 h2,
     RateLimitGenerator.close_closed w2 h2⟩⟩
  · rw [hs]
    split <;> omega
  · rw [hs]
    split <;> simp_all

/-- C3 witness: driving a 3-element stream to exhaustion (and beyond, plus a
late `close`) makes exactly one `RateLimit.exit` call. -/
theorem rate_limit_generator_single_release_witness :
    (RateLimitGenerator.runOps
      [.nextOp, .nextOp, .nextOp, .nextOp, .nextOp, .closeOp]
      sampleWrapper).2 = 1 :=
  (rate_limit_generator_single_release
    [.nextOp, .nextOp, .nextOp, .nextOp, .nextOp, .closeOp]
    sampleWrapper rfl).2.1.mpr (by decide)

/-- C6: when the wrapped generator raises an error during production, the
wrapper's `next` reports that same error unchanged, and the one-time
cleanup has run by then: the wrapper is closed, exactly one
`RateLimit.exit` call was made (its redis commands are exactly those of
`RateLimit.exit` on the ticket), and the wrapped generator's own `close`
hook was invoked when it has one. -/
theorem generator_reraises_error_after_cleanup (w : RateLimitGenerator)
    (e : String) (h : w.closed = false)
    (hitems : w.generator.items = [])
    (hterm : w.generator.terminal = .failed e) :
    (RateLimitGenerator.next w).1 = .raised e ∧
    (RateLimitGenerator.next w).2.1.closed = true ∧
    (RateLimitGenerator.next w).2.2.1 = 1 ∧
    (w.generator.hasClose = true →
      (RateLimitGenerator.next w).2.1.generator.closeCalled = true) ∧
    (RateLimitGenerator.next w).2.2.2 =
      (RateLimit.exit w.request_id w.rate_limit).2 := by
  have hp : RateLimit.pyNext w.generator =
      (.raised e,
       { w.generator with nextCalls := w.generator.nextCalls + 1 }) := by
    simp [RateLimit.pyNext, hitems, hterm]
  refine ⟨?_, ?_, ?_, ?_, ?_⟩ <;>
    simp [RateLimitGenerator.next, RateLimitGenerator.close, h, hp]
  intro hc
  simp [hc]

/-- C6 witness: the failing sample wrapper reports `"boom"` and has made
exactly one release call. -/
theorem generator_reraises_error_after_cleanup_witness :
    (RateLimitGenerator.next sampleWrapperFail).1 = .raised "boom" ∧
    (RateLimitGenerator.next sampleWrapperFail).2.2.1 = 1 :=
  ⟨(generator_reraises_error_after_cleanup _ "boom" rfl rfl rfl).1,
   (generator_reraises_error_after_cleanup _ "boom" rfl rfl rfl).2.2.1⟩

/-- C10 witness: a concrete mapping result passes through `generate`
unchanged. -/
theorem generate_mapping_passthrough_witness :
    RateLimit.generate sampleLimiter (.mapping [("answer", "42")]) "r" =
      .mapping [("answer", "42")] :=
  (generate_mapping_passthrough sampleLimiter [("answer", "42")]
    sampleGenExhaust "r").1
